import Mathlib

/-!
Verification of the `python-typing` repository's diagnostic-analysis pipeline
(`src/scripts/analyze_typing.py`) and scaffolding script
(`src/scripts/init_typing.py`), as a shallow embedding in Lean 4.

Modelling conventions:
* JSON dictionaries become structures with `Option`-typed fields: `none`
  models an absent key, mirroring Python's `dict.get` with a default.
* `collections.Counter` (an insertion-ordered dict of counts) becomes an
  association list `List (α × Nat)` in key-insertion order; incrementing an
  existing key keeps its position, a new key is appended at the end —
  exactly the semantics of a Python 3.7+ dict.
* `Counter.most_common` (a stable sort by descending count, CPython's
  documented behaviour for both the `n = None` and `nlargest` paths) becomes
  a stable insertion sort by descending count.
* File paths are lists of path components, mirroring `pathlib.PurePath.parts`;
  `Path.relative_to` is the parts-prefix test that pathlib performs.
* Each `print` statement of the renderer becomes one constructor of
  `OutputLine`, keeping every decision (which lines appear, in which order,
  with which data) while abstracting the fixed-width text formatting.
* The subprocess boundary of `run_pyright` becomes an explicit outcome value,
  and `json.loads` an `Option`-returning parse parameter; Python's
  `try/except` returning `None` becomes totality with `Option`.
-/

/-- One pyright diagnostic, from the `generalDiagnostics` JSON array.
`none` fields model absent JSON keys (`diag.get(...)`). The file path is
kept as its list of components. -/
structure Diagnostic where
  severity : Option String
  rule : Option String
  file : Option (List String)
  deriving DecidableEq

/-- The `summary` object of a pyright report (`summary.get("errorCount", 0)`
etc., so both counts are optional). -/
structure Summary where
  errorCount : Option Nat
  warningCount : Option Nat
  deriving DecidableEq

/-- A full pyright JSON report: `generalDiagnostics` plus an optional
`summary` (`data.get("summary", {})`). -/
structure Report where
  generalDiagnostics : List Diagnostic
  summary : Option Summary
  deriving DecidableEq

/-- `data.get("summary", {}).get("errorCount", 0)`. -/
def summaryErrorCount (r : Report) : Nat :=
  match r.summary with
  | none => 0
  | some s => s.errorCount.getD 0

/-- `data.get("summary", {}).get("warningCount", 0)`. -/
def summaryWarningCount (r : Report) : Nat :=
  match r.summary with
  | none => 0
  | some s => s.warningCount.getD 0

/-- `counter[k] += 1` on an insertion-ordered counter: an existing key keeps
its position, a new key is appended at the end (Python 3.7+ dict semantics,
on which `collections.Counter` is based). -/
def incr {α : Type} [DecidableEq α] : List (α × Nat) → α → List (α × Nat)
  | [], k => [(k, 1)]
  | (k', c) :: rest, k =>
    if k' = k then (k', c + 1) :: rest else (k', c) :: incr rest k

/-- Total of all counts stored in a counter. -/
def sumCounts {α : Type} : List (α × Nat) → Nat
  | [] => 0
  | p :: rest => p.2 + sumCounts rest

/-- The keys of a counter, in insertion order (`dict` iteration order). -/
def counterKeys {α : Type} (l : List (α × Nat)) : List α :=
  l.map Prod.fst

/-- `counter.get(k, 0)` (plain dict lookup with default 0). -/
def counterGet {α : Type} [DecidableEq α] (l : List (α × Nat)) (k : α) : Nat :=
  match l.find? (fun p => p.1 = k) with
  | some p => p.2
  | none => 0

/-- Build a counter by incrementing once per key occurrence, in order:
the loop `for x in keys: counter[x] += 1`. -/
def buildCounter {α : Type} [DecidableEq α] (keys : List α) : List (α × Nat) :=
  keys.foldl incr []

/-- Insert an entry into a count-descending list: it goes in front of the
first entry whose count is `≤` its own, hence after every earlier-inserted
entry with the same count.  This is the insertion step of a stable
descending sort by count. -/
def insertByCount {α : Type} (p : α × Nat) : List (α × Nat) → List (α × Nat)
  | [] => [p]
  | q :: rest => if q.2 ≤ p.2 then p :: q :: rest else q :: insertByCount p rest

/-- `Counter.most_common()` with no argument: the entries sorted by
descending count, ties kept in insertion order (CPython's
`sorted(items, key=count, reverse=True)`, a stable sort). -/
def mostCommonAll {α : Type} (l : List (α × Nat)) : List (α × Nat) :=
  l.foldr insertByCount []

/-- `Counter.most_common(n)`: the first `n` entries of the stable descending
sort (CPython documents `heapq.nlargest` as equivalent to
`sorted(...)[:n]`). -/
def mostCommon {α : Type} (l : List (α × Nat)) (n : Nat) : List (α × Nat) :=
  (mostCommonAll l).take n

/-- Python's `min(l, key=lambda x: x[1])` on a list of pairs: the first
entry attaining the minimal count; `none` on the empty list. -/
def minByCount {α : Type} : List (α × Nat) → Option (α × Nat)
  | [] => none
  | p :: rest =>
    match minByCount rest with
    | none => some p
    | some q => if p.2 ≤ q.2 then some p else some q

/-- Descending-count order on counter entries: `countGE p q` holds when `q`
may follow `p` in a `most_common` enumeration. -/
def countGE {α : Type} (p q : α × Nat) : Prop := q.2 ≤ p.2

/-- The distinct elements of a list in first-occurrence order. -/
def firstSeenKeys {α : Type} [DecidableEq α] (ks : List α) : List α :=
  ks.foldl (fun acc k => if k ∈ acc then acc else acc ++ [k]) []

/-- The diagnostics that enter the frequency tables: exactly those with
`diag.get("severity") == "error"` (absent severity, warnings and
informational entries are excluded). -/
def errorDiags (ds : List Diagnostic) : List Diagnostic :=
  ds.filter (fun d => d.severity = some "error")

/-- `diag.get("rule", "unknown")`: the rule-table key of a diagnostic. -/
def ruleKey (d : Diagnostic) : String :=
  d.rule.getD "unknown"

/-- `Path(p).relative_to(cwd)` on path components: succeeds with the
remaining components exactly when `cwd`'s parts are a prefix of `p`'s parts,
and raises `ValueError` (here: `none`) otherwise. -/
def relativeTo (cwd p : List String) : Option (List String) :=
  if cwd.isPrefixOf p then some (p.drop cwd.length) else none

/-- The `try: file_path = str(Path(file_path).relative_to(Path.cwd()))
except ValueError: pass` conversion: the relative form when it exists,
otherwise the original path unchanged. -/
def displayPath (cwd p : List String) : List String :=
  match relativeTo cwd p with
  | some rel => rel
  | none => p

/-- The file-table key of a diagnostic: `diag.get("file", "unknown")`
shortened for display via `displayPath`. -/
def fileKey (cwd : List String) (d : Diagnostic) : List String :=
  displayPath cwd (d.file.getD ["unknown"])

/-- The `rules` counter of `analyze_errors`: one increment per
error-severity diagnostic, keyed by rule. -/
def ruleFrequency (ds : List Diagnostic) : List (String × Nat) :=
  buildCounter ((errorDiags ds).map ruleKey)

/-- The `files` counter of `analyze_errors`: one increment per
error-severity diagnostic, keyed by display path. -/
def fileFrequency (cwd : List String) (ds : List Diagnostic) : List (List String × Nat) :=
  buildCounter ((errorDiags ds).map (fileKey cwd))

/-- `_get_rule_hint`: the fixed hint table, empty string when unknown. -/
def get_rule_hint (rule : String) : String :=
  if rule = "reportUnknownMemberType" then "Usually third-party libs → install stubs"
  else if rule = "reportMissingParameterType" then "Add parameter annotations"
  else if rule = "reportMissingTypeStubs" then "pip install types-{package}"
  else if rule = "reportUnknownArgumentType" then "Check function call types"
  else if rule = "reportGeneralTypeIssues" then "Type mismatch → fix logic or annotations"
  else if rule = "reportOptionalMemberAccess" then "Add None check before access"
  else if rule = "reportUnknownVariableType" then "Add variable annotation"
  else if rule = "reportPrivateUsage" then "Rename or make public"
  else if rule = "reportAttributeAccessIssue" then "Check attribute exists on type"
  else if rule = "reportReturnType" then "Add return type annotation"
  else ""

/-- The `quick_win_rules` allow-list of `_suggest_starting_point`. -/
def quick_win_rules : List String :=
  ["reportMissingParameterType", "reportMissingTypeStubs", "reportUnusedImport",
   "reportUnusedVariable", "reportReturnType"]

/-- `sum(rules.get(r, 0) for r in quick_win_rules)`. -/
def quickWinSum (rules : List (String × Nat)) : Nat :=
  (quick_win_rules.map (counterGet rules)).sum

/-- `rules.get("reportMissingTypeStubs", 0) + rules.get("reportUnknownMemberType", 0)`. -/
def stubCount (rules : List (String × Nat)) : Nat :=
  counterGet rules "reportMissingTypeStubs" + counterGet rules "reportUnknownMemberType"

/-- One printed line of the analysis report.  Each constructor stands for
one `print` statement of `analyze_errors` / `_suggest_starting_point`,
carrying the data that parametrises it (fixed-width formatting and the
percentage, a display-only float, are abstracted away). -/
inductive OutputLine where
  | banner
  | title
  | totals (errors warnings : Nat)
  | noErrors
  | byErrorTypeHeader
  | sep
  | ruleEntry (rule : String) (count : Nat)
  | ruleHint (hint : String)
  | moreTypes (n : Nat)
  | byFileHeader
  | fileEntry (path : List String) (count : Nat)
  | moreFiles (n : Nat)
  | blank
  | strategyHeader
  | quickWins (n : Nat)
  | quickWinsDetail
  | stubs (n : Nat)
  | stubsDetail
  | goodStartingFile (path : List String) (count : Nat)
  | startSmall (path : List String) (count : Nat)
  deriving DecidableEq

/-- The starting-file recommendation of `_suggest_starting_point`:
either the "Good starting file" branch or the "Start small" fallback. -/
inductive StartSuggestion (α : Type) where
  | goodStart (key : α) (count : Nat)
  | startSmall (key : α) (count : Nat)
  deriving DecidableEq

/-- The starting-file selection of `_suggest_starting_point`:
nothing when `files` is empty; otherwise the first minimum-count entry of
`moderate_files = [(f, c) for f, c in files.items() if 5 <= c <= 20]`
when that list is nonempty, and `files.most_common()[-1]` (the last entry
of the stable descending sort) as the fallback. -/
def startingPick {α : Type} [DecidableEq α] (files : List (α × Nat)) :
    Option (StartSuggestion α) :=
  if files.isEmpty then none
  else
    let moderate := files.filter (fun p => decide (5 ≤ p.2 ∧ p.2 ≤ 20))
    match minByCount moderate with
    | some p => some (.goodStart p.1 p.2)
    | none =>
      match (mostCommonAll files).getLast? with
      | some p => some (.startSmall p.1 p.2)
      | none => none

/-- The lines printed by `_suggest_starting_point`. -/
def suggest_starting_point (rules : List (String × Nat))
    (files : List (List String × Nat)) : List OutputLine :=
  [.strategyHeader, .sep]
  ++ (if 0 < quickWinSum rules then [.quickWins (quickWinSum rules), .quickWinsDetail] else [])
  ++ (if 20 < stubCount rules then [.stubs (stubCount rules), .stubsDetail] else [])
  ++ (match startingPick files with
      | some (.goodStart p c) => [.goodStartingFile p c]
      | some (.startSmall p c) => [.startSmall p c]
      | none => [])
  ++ [.blank]

/-- One rule-table row: the entry line, plus the hint line when the hint
table has an entry for this rule. -/
def ruleLine (p : String × Nat) : List OutputLine :=
  .ruleEntry p.1 p.2 ::
    (if get_rule_hint p.1 = "" then [] else [.ruleHint (get_rule_hint p.1)])

/-- The "By Error Type" section: header, top-10 rows, truncation notice
when more than 10 distinct rules exist. -/
def ruleSection (rules : List (String × Nat)) : List OutputLine :=
  [.byErrorTypeHeader, .sep]
  ++ (mostCommon rules 10).flatMap ruleLine
  ++ (if 10 < rules.length then [.moreTypes (rules.length - 10)] else [])
  ++ [.blank]

/-- The "By File (top 10)" section: header, top-10 rows, truncation notice
when more than 10 distinct files exist. -/
def fileSection (files : List (List String × Nat)) : List OutputLine :=
  [.byFileHeader, .sep]
  ++ (mostCommon files 10).map (fun p => .fileEntry p.1 p.2)
  ++ (if 10 < files.length then [.moreFiles (files.length - 10)] else [])
  ++ [.blank]

/-- `analyze_errors(data)` as the sequence of lines it prints, with the
current working directory made an explicit parameter.  When
`errorCount == 0` it short-circuits after the celebratory line; otherwise
it builds both frequency tables from the error-severity diagnostics and
renders the rule section, the file section and the suggestions. -/
def analyze_errors (cwd : List String) (data : Report) : List OutputLine :=
  let error_count := summaryErrorCount data
  let warning_count := summaryWarningCount data
  let header : List OutputLine := [.banner, .title, .banner, .totals error_count warning_count]
  if error_count = 0 then header ++ [.noErrors]
  else
    let rules := ruleFrequency data.generalDiagnostics
    let files := fileFrequency cwd data.generalDiagnostics
    header ++ ruleSection rules ++ fileSection files ++ suggest_starting_point rules files

/-- Outcome of the `subprocess.run(["npx", "pyright", "--outputjson"], ...)`
call: the process completed with some exit code and captured stdout, could
not be started at all, or hit the 120-second timeout. -/
inductive ProcOutcome where
  | completed (exitCode : Int) (stdout : String)
  | startFailure
  | timeout
  deriving DecidableEq

/-- `run_pyright()` over an explicit subprocess outcome and a JSON parser
(`parseJson out = none` models `json.loads` raising).  Every exception path
of the `try/except` — launch failure, timeout, unparseable stdout — yields
`none`; a completed process has its stdout parsed regardless of exit code. -/
def run_pyright (outcome : ProcOutcome) (parseJson : String → Option Report) :
    Option Report :=
  match outcome with
  | .startFailure => none
  | .timeout => none
  | .completed _exitCode out => parseJson out

/-- Abstract content of a file written or copied by `init_typing.py`.
The constructors tag which template produced the content; `copied` carries
a content copied verbatim (e.g. by `shutil.copy`). -/
inductive FileContent where
  | pyrightConfig (level : String)
  | findingsTemplate
  | hookScript
  | hookAppended (prev : FileContent)
  | plain (s : String)
  deriving DecidableEq

/-- Association-list lookup on the file store (newest entry wins). -/
def lookupFile : List (List String × FileContent) → List String → Option FileContent
  | [], _ => none
  | (q, c) :: rest, p => if q = p then some c else lookupFile rest p

/-- A file system: file contents by path, plus the set of directories
(needed for the `.git` existence test), both keyed by component lists. -/
structure FS where
  files : List (List String × FileContent)
  dirs : List (List String)
  deriving DecidableEq

/-- Read a file's content, `none` when absent. -/
def FS.read (fs : FS) (p : List String) : Option FileContent :=
  lookupFile fs.files p

/-- `open(p, "w")` followed by a full write: create or overwrite. -/
def FS.write (fs : FS) (p : List String) (c : FileContent) : FS :=
  ⟨(p, c) :: fs.files, fs.dirs⟩

/-- `p.mkdir(exist_ok=True)`: record the directory, never an error. -/
def FS.mkdir (fs : FS) (d : List String) : FS :=
  if d ∈ fs.dirs then fs else ⟨fs.files, d :: fs.dirs⟩

/-- `create_pyright_config(level, project_dir)`, restricted to its
file-system effect: back up an existing `pyrightconfig.json` byte-for-byte
to `pyrightconfig.json.bak`, then write the selected preset
(`configs.get(level, configs["strict"])`).  The baseline `run_pyright`
call reads no file and writes none, so it does not appear here. -/
def create_pyright_config (level : String) (projectDir : List String) (fs : FS) : FS :=
  let configPath := projectDir ++ ["pyrightconfig.json"]
  let chosen := if level = "standard" ∨ level = "basic" then level else "strict"
  let fs' :=
    match fs.read configPath with
    | some c => fs.write (projectDir ++ ["pyrightconfig.json.bak"]) c
    | none => fs
  fs'.write configPath (.pyrightConfig chosen)

/-- The four rule documents `create_rules` copies. -/
def ruleDocNames : List String :=
  ["block-type-ignore.md", "block-gratuitous-assert.md", "warn-any-type.md",
   "warn-cast-overuse.md"]

/-- `create_rules(project_dir)`: make the harness directories, then copy
each rule document that exists under the skill's `assets/rules`, skipping
(with only a warning) the ones that do not. -/
def create_rules (skillDir projectDir : List String) (fs : FS) : FS :=
  let fs₁ := (fs.mkdir (projectDir ++ [".long-task-harness"])).mkdir
    (projectDir ++ [".long-task-harness", "rules"])
  ruleDocNames.foldl (fun acc rule =>
    match acc.read (skillDir ++ ["assets", "rules", rule]) with
    | some c => acc.write (projectDir ++ [".long-task-harness", "rules", rule]) c
    | none => acc) fs₁

/-- The path of the findings log created by `create_typing_findings`. -/
def findingsPath (projectDir : List String) : List String :=
  projectDir ++ [".long-task-harness", "typing-findings.md"]

/-- `create_typing_findings(project_dir)`: make the harness directory; if
`typing-findings.md` already exists, print a warning and leave it
untouched, otherwise write the fixed template. -/
def create_typing_findings (projectDir : List String) (fs : FS) : FS :=
  let fs₁ := fs.mkdir (projectDir ++ [".long-task-harness"])
  match fs₁.read (findingsPath projectDir) with
  | some _ => fs₁
  | none => fs₁.write (findingsPath projectDir) .findingsTemplate

/-- `create_precommit_hook(project_dir)`: skip when `.git` is absent;
otherwise append the pyright check to an existing `pre-commit` hook or
create a fresh one. -/
def create_precommit_hook (projectDir : List String) (fs : FS) : FS :=
  if (projectDir ++ [".git"]) ∈ fs.dirs then
    let fs₁ := fs.mkdir (projectDir ++ [".git", "hooks"])
    let hookPath := projectDir ++ [".git", "hooks", "pre-commit"]
    match fs₁.read hookPath with
    | some c => fs₁.write hookPath (.hookAppended c)
    | none => fs₁.write hookPath .hookScript
  else fs

/-- The file-system effect of `main()` in `init_typing.py`: config (with
backup), rule documents unless `--no-rules`, the findings log, and the
pre-commit hook unless `--no-hook`.  The `--full` extras
(`install_long_task_harness`, `install_ralph_wiggum`) only spawn external
processes or write under the user's home directory, never under the
project's findings path, and are omitted. -/
def init_main (level : String) (noRules noHook : Bool) (skillDir projectDir : List String)
    (fs : FS) : FS :=
  let fs₁ := create_pyright_config level projectDir fs
  let fs₂ := if noRules then fs₁ else create_rules skillDir projectDir fs₁
  let fs₃ := create_typing_findings projectDir fs₂
  if noHook then fs₃ else create_precommit_hook projectDir fs₃

/-- Seven identical error diagnostics in one file `g`: a concrete input
whose file table is `[(["g"], 7)]`, with 7 inside the `[5, 20]` range. -/
def sevenErrorDiags : List Diagnostic :=
  List.replicate 7 ⟨some "error", some "reportMissingParameterType", some ["g"]⟩

/-- Report wrapping `sevenErrorDiags`. -/
def sevenErrorReport : Report :=
  ⟨sevenErrorDiags, some ⟨some 7, some 0⟩⟩

/-- Eleven error diagnostics carrying eleven distinct rule identifiers. -/
def elevenRuleDiags : List Diagnostic :=
  [⟨some "error", some "r01", some ["f"]⟩, ⟨some "error", some "r02", some ["f"]⟩,
   ⟨some "error", some "r03", some ["f"]⟩, ⟨some "error", some "r04", some ["f"]⟩,
   ⟨some "error", some "r05", some ["f"]⟩, ⟨some "error", some "r06", some ["f"]⟩,
   ⟨some "error", some "r07", some ["f"]⟩, ⟨some "error", some "r08", some ["f"]⟩,
   ⟨some "error", some "r09", some ["f"]⟩, ⟨some "error", some "r10", some ["f"]⟩,
   ⟨some "error", some "r11", some ["f"]⟩]

/-- Report wrapping `elevenRuleDiags`. -/
def elevenRuleReport : Report :=
  ⟨elevenRuleDiags, some ⟨some 11, some 0⟩⟩

/-- Recognizer for rule-table entry lines, used to count them. -/
def isRuleEntry : OutputLine → Bool
  | .ruleEntry _ _ => true
  | _ => false

/-- Recognizer for file-table entry lines, used to count them. -/
def isFileEntry : OutputLine → Bool
  | .fileEntry _ _ => true
  | _ => false

theorem sumCounts_incr {α : Type} [DecidableEq α] (l : List (α × Nat)) (k : α) :
    sumCounts (incr l k) = sumCounts l + 1 := by
  induction l with
  | nil => simp [incr, sumCounts]
  | cons p rest ih =>
    by_cases h : p.1 = k
    · simp only [incr, h, if_true, sumCounts]
      omega
    · simp only [incr, h, if_false, sumCounts, ih]
      omega

theorem sumCounts_foldl_incr {α : Type} [DecidableEq α] (keys : List α) :
    ∀ init : List (α × Nat),
      sumCounts (keys.foldl incr init) = sumCounts init + keys.length := by
  induction keys with
  | nil => intro init; simp
  | cons k rest ih =>
    intro init
    simp only [List.foldl_cons, List.length_cons, ih (incr init k), sumCounts_incr]
    omega

theorem sumCounts_buildCounter {α : Type} [DecidableEq α] (keys : List α) :
    sumCounts (buildCounter keys) = keys.length := by
  simpa [buildCounter, sumCounts] using sumCounts_foldl_incr keys []

theorem perm_insertByCount {α : Type} (p : α × Nat) (l : List (α × Nat)) :
    (insertByCount p l).Perm (p :: l) := by
  induction l with
  | nil => simp [insertByCount]
  | cons q rest ih =>
    by_cases h : q.2 ≤ p.2
    · simp [insertByCount, h]
    · simp only [insertByCount, h, if_false]
      exact (ih.cons q).trans (List.Perm.swap p q rest)

theorem perm_mostCommonAll {α : Type} (l : List (α × Nat)) :
    (mostCommonAll l).Perm l := by
  induction l with
  | nil => simp [mostCommonAll]
  | cons p rest ih =>
    simpa [mostCommonAll] using (perm_insertByCount p (mostCommonAll rest)).trans (ih.cons p)

theorem mem_insertByCount {α : Type} {x p : α × Nat} {l : List (α × Nat)} :
    x ∈ insertByCount p l ↔ x = p ∨ x ∈ l := by
  rw [(perm_insertByCount p l).mem_iff]
  simp

theorem sorted_insertByCount {α : Type} (p : α × Nat) {l : List (α × Nat)}
    (h : l.Sorted countGE) : (insertByCount p l).Sorted countGE := by
  induction l with
  | nil => simp [insertByCount]
  | cons q rest ih =>
    rw [List.sorted_cons] at h
    by_cases hq : q.2 ≤ p.2
    · simp only [insertByCount, hq, if_true]
      rw [List.sorted_cons]
      refine ⟨?_, List.sorted_cons.mpr h⟩
      intro b hb
      rcases List.mem_cons.mp hb with rfl | hb
      · exact hq
      · exact Nat.le_trans (h.1 b hb) hq
    · simp only [insertByCount, hq, if_false]
      rw [List.sorted_cons]
      refine ⟨?_, ih h.2⟩
      intro b hb
      rcases mem_insertByCount.mp hb with rfl | hb
      · exact Nat.le_of_lt (Nat.lt_of_not_le hq)
      · exact h.1 b hb

theorem sorted_mostCommonAll {α : Type} (l : List (α × Nat)) :
    (mostCommonAll l).Sorted countGE := by
  induction l with
  | nil => simp [mostCommonAll]
  | cons p rest ih => exact sorted_insertByCount p ih

theorem filter_insertByCount {α : Type} (c : Nat) (p : α × Nat) (l : List (α × Nat)) :
    (insertByCount p l).filter (fun q => q.2 == c) =
      (p :: l).filter (fun q => q.2 == c) := by
  induction l with
  | nil => simp [insertByCount]
  | cons q rest ih =>
    by_cases hq : q.2 ≤ p.2
    · simp [insertByCount, hq]
    · have hlt : p.2 < q.2 := Nat.lt_of_not_le hq
      simp only [insertByCount, hq, if_false]
      by_cases hpc : p.2 = c
      · have hqc : ¬(q.2 = c) := by omega
        simp [List.filter_cons, ih, hpc, hqc]
      · by_cases hqc : q.2 = c
        · simp [List.filter_cons, ih, hpc, hqc]
        · simp [List.filter_cons, ih, hpc, hqc]

theorem filter_mostCommonAll {α : Type} (c : Nat) (l : List (α × Nat)) :
    (mostCommonAll l).filter (fun q => q.2 == c) = l.filter (fun q => q.2 == c) := by
  induction l with
  | nil => simp [mostCommonAll]
  | cons p rest ih =>
    calc (mostCommonAll (p :: rest)).filter (fun q => q.2 == c)
        = (p :: mostCommonAll rest).filter (fun q => q.2 == c) := by
          simpa [mostCommonAll] using filter_insertByCount c p (mostCommonAll rest)
      _ = (p :: rest).filter (fun q => q.2 == c) := by
          simp only [List.filter_cons]
          rw [ih]

theorem counterKeys_incr {α : Type} [DecidableEq α] (l : List (α × Nat)) (k : α) :
    counterKeys (incr l k) =
      if k ∈ counterKeys l then counterKeys l else counterKeys l ++ [k] := by
  induction l with
  | nil => simp [incr, counterKeys]
  | cons p rest ih =>
    by_cases h : p.1 = k
    · simp [incr, counterKeys, h]
    · have hne : ¬(k = p.1) := fun hk => h hk.symm
      simp only [incr, h, if_false, counterKeys, List.map_cons]
      simp only [counterKeys] at ih
      rw [ih]
      by_cases hmem : k ∈ rest.map Prod.fst
      · simp [hmem, hne]
      · simp [hmem, hne]

theorem counterKeys_foldl_incr {α : Type} [DecidableEq α] (keys : List α) :
    ∀ init : List (α × Nat),
      counterKeys (keys.foldl incr init) =
        keys.foldl (fun acc k => if k ∈ acc then acc else acc ++ [k]) (counterKeys init) := by
  induction keys with
  | nil => intro init; simp
  | cons k rest ih =>
    intro init
    simp only [List.foldl_cons, ih (incr init k), counterKeys_incr]

theorem counterKeys_buildCounter {α : Type} [DecidableEq α] (keys : List α) :
    counterKeys (buildCounter keys) = firstSeenKeys keys := by
  simpa [buildCounter, counterKeys, firstSeenKeys] using counterKeys_foldl_incr keys []

theorem minByCount_eq_none {α : Type} (l : List (α × Nat)) :
    minByCount l = none ↔ l = [] := by
  cases l with
  | nil => simp [minByCount]
  | cons p rest =>
    simp only [minByCount]
    cases h : minByCount rest with
    | none => simp
    | some q =>
      by_cases hle : p.2 ≤ q.2 <;> simp [hle]

theorem minByCount_spec {α : Type} :
    ∀ {l : List (α × Nat)} {p : α × Nat}, minByCount l = some p →
      (∃ l₁ l₂, l = l₁ ++ p :: l₂ ∧ ∀ q ∈ l₁, p.2 < q.2) ∧ ∀ q ∈ l, p.2 ≤ q.2 := by
  intro l
  induction l with
  | nil => intro p hp; simp [minByCount] at hp
  | cons x rest ih =>
    intro p hp
    cases h : minByCount rest with
    | none =>
      have hrest : rest = [] := (minByCount_eq_none rest).mp h
      simp only [minByCount, h, Option.some.injEq] at hp
      subst hp
      subst hrest
      exact ⟨⟨[], [], by simp, by simp⟩, by simp⟩
    | some q =>
      simp only [minByCount, h] at hp
      rcases ih h with ⟨⟨l₁, l₂, hsplit, hstrict⟩, hmin⟩
      by_cases hle : x.2 ≤ q.2
      · simp only [hle, if_true, Option.some.injEq] at hp
        subst hp
        refine ⟨⟨[], rest, by simp, by simp⟩, ?_⟩
        intro z hz
        rcases List.mem_cons.mp hz with rfl | hz
        · exact Nat.le_refl _
        · exact Nat.le_trans hle (hmin z hz)
      · simp only [hle, if_false, Option.some.injEq] at hp
        subst hp
        have hlt : q.2 < x.2 := Nat.lt_of_not_le hle
        refine ⟨⟨x :: l₁, l₂, by simp [hsplit], ?_⟩, ?_⟩
        · intro z hz
          rcases List.mem_cons.mp hz with rfl | hz
          · exact hlt
          · exact hstrict z hz
        · intro z hz
          rcases List.mem_cons.mp hz with rfl | hz
          · exact Nat.le_of_lt hlt
          · exact hmin z hz

theorem getLast?_mem_self {α : Type} :
    ∀ {l : List α} {x : α}, l.getLast? = some x → x ∈ l := by
  intro l
  induction l with
  | nil => intro x hx; simp at hx
  | cons a rest ih =>
    intro x hx
    cases rest with
    | nil =>
      simp only [List.getLast?_singleton, Option.some.injEq] at hx
      simp [hx]
    | cons b t =>
      rw [List.getLast?_cons_cons] at hx
      exact List.mem_cons_of_mem a (ih hx)

theorem getLast?_min_of_sorted {α : Type} :
    ∀ {l : List (α × Nat)}, l.Sorted countGE →
      ∀ {p : α × Nat}, l.getLast? = some p → ∀ q ∈ l, p.2 ≤ q.2 := by
  intro l
  induction l with
  | nil => intro _ p hp; simp at hp
  | cons a rest ih =>
    intro hs p hp q hq
    rw [List.sorted_cons] at hs
    cases rest with
    | nil =>
      simp only [List.getLast?_singleton, Option.some.injEq] at hp
      subst hp
      rcases List.mem_cons.mp hq with rfl | hq
      · exact Nat.le_refl _
      · simp at hq
    | cons b t =>
      rw [List.getLast?_cons_cons] at hp
      rcases List.mem_cons.mp hq with rfl | hq
      · exact hs.1 p (getLast?_mem_self hp)
      · exact ih hs.2 hp q hq

theorem getLast?_filter_of_getLast? {α : Type} {P : α → Bool} :
    ∀ {l : List α} {x : α}, l.getLast? = some x → P x = true →
      (l.filter P).getLast? = some x := by
  intro l
  induction l with
  | nil => intro x hx; simp at hx
  | cons a rest ih =>
    intro x hx hPx
    cases rest with
    | nil =>
      simp only [List.getLast?_singleton, Option.some.injEq] at hx
      subst hx
      simp [List.filter_cons, hPx]
    | cons b t =>
      rw [List.getLast?_cons_cons] at hx
      have htail := ih hx hPx
      rw [List.filter_cons]
      by_cases hPa : P a = true
      · simp only [hPa, if_true]
        cases hft : (b :: t).filter P with
        | nil => rw [hft] at htail; simp at htail
        | cons c u =>
          rw [hft] at htail
          rw [List.getLast?_cons_cons]
          exact htail
      · simp [hPa, htail]

theorem read_write_self (fs : FS) (p : List String) (c : FileContent) :
    (fs.write p c).read p = some c := by
  simp [FS.read, FS.write, lookupFile]

theorem read_write_other (fs : FS) {p q : List String} (c : FileContent)
    (h : p ≠ q) : (fs.write p c).read q = fs.read q := by
  simp [FS.read, FS.write, lookupFile, h]

theorem read_mkdir (fs : FS) (d q : List String) :
    (fs.mkdir d).read q = fs.read q := by
  unfold FS.mkdir
  by_cases h : d ∈ fs.dirs <;> simp [h, FS.read]

theorem read_findings_create_pyright_config (level : String)
    (projectDir : List String) (fs : FS) :
    (create_pyright_config level projectDir fs).read (findingsPath projectDir) =
      fs.read (findingsPath projectDir) := by
  have hcfg : projectDir ++ ["pyrightconfig.json"] ≠ findingsPath projectDir := by
    intro h
    have := List.append_cancel_left h
    simp at this
  have hbak : projectDir ++ ["pyrightconfig.json.bak"] ≠ findingsPath projectDir := by
    intro h
    have := List.append_cancel_left h
    simp at this
  unfold create_pyright_config
  cases h : fs.read (projectDir ++ ["pyrightconfig.json"]) with
  | none => simp [h, read_write_other _ _ hcfg]
  | some c => simp [h, read_write_other _ _ hcfg, read_write_other _ _ hbak]

theorem read_findings_rules_foldl (skillDir projectDir : List String) :
    ∀ (names : List String) (fs : FS),
      (names.foldl (fun acc rule =>
        match acc.read (skillDir ++ ["assets", "rules", rule]) with
        | some c => acc.write (projectDir ++ [".long-task-harness", "rules", rule]) c
        | none => acc) fs).read (findingsPath projectDir) =
      fs.read (findingsPath projectDir) := by
  intro names
  induction names with
  | nil => intro fs; simp
  | cons rule rest ih =>
    intro fs
    simp only [List.foldl_cons]
    cases h : fs.read (skillDir ++ ["assets", "rules", rule]) with
    | none => simp only [h]; exact ih fs
    | some c =>
      simp only [h]
      rw [ih]
      have hne : projectDir ++ [".long-task-harness", "rules", rule] ≠ findingsPath projectDir := by
        intro hq
        have := List.append_cancel_left hq
        simp at this
      exact read_write_other _ _ hne

theorem read_findings_create_rules (skillDir projectDir : List String) (fs : FS) :
    (create_rules skillDir projectDir fs).read (findingsPath projectDir) =
      fs.read (findingsPath projectDir) := by
  unfold create_rules
  rw [read_findings_rules_foldl, read_mkdir, read_mkdir]

theorem read_findings_create_precommit_hook (projectDir : List String) (fs : FS) :
    (create_precommit_hook projectDir fs).read (findingsPath projectDir) =
      fs.read (findingsPath projectDir) := by
  have hne : projectDir ++ [".git", "hooks", "pre-commit"] ≠ findingsPath projectDir := by
    intro hq
    have := List.append_cancel_left hq
    simp at this
  unfold create_precommit_hook
  by_cases hgit : (projectDir ++ [".git"]) ∈ fs.dirs
  · simp only [hgit, if_true]
    cases h : (fs.mkdir (projectDir ++ [".git", "hooks"])).read
        (projectDir ++ [".git", "hooks", "pre-commit"]) with
    | none => simp only [h]; rw [read_write_other _ _ hne, read_mkdir]
    | some c => simp only [h]; rw [read_write_other _ _ hne, read_mkdir]
  · simp [hgit]

theorem read_findings_create_typing_findings (projectDir : List String) (fs : FS) :
    (create_typing_findings projectDir fs).read (findingsPath projectDir) =
      some ((fs.read (findingsPath projectDir)).getD .findingsTemplate) := by
  unfold create_typing_findings
  cases h : fs.read (findingsPath projectDir) with
  | none =>
    have h' : (fs.mkdir (projectDir ++ [".long-task-harness"])).read (findingsPath projectDir)
        = none := by rw [read_mkdir]; exact h
    simp [h', read_write_self]
  | some c =>
    have h' : (fs.mkdir (projectDir ++ [".long-task-harness"])).read (findingsPath projectDir)
        = some c := by rw [read_mkdir]; exact h
    simp [h']

theorem mkdir_idem (fs : FS) (d : List String) :
    (fs.mkdir d).mkdir d = fs.mkdir d := by
  unfold FS.mkdir
  by_cases h : d ∈ fs.dirs
  · simp [h]
  · simp [h, List.mem_cons]

theorem mem_dirs_mkdir (fs : FS) (d : List String) : d ∈ (fs.mkdir d).dirs := by
  unfold FS.mkdir
  by_cases h : d ∈ fs.dirs <;> simp [h]

theorem mkdir_of_mem {fs : FS} {d : List String} (h : d ∈ fs.dirs) : fs.mkdir d = fs := by
  unfold FS.mkdir
  simp [h]

theorem create_typing_findings_idem (projectDir : List String) (fs : FS) :
    create_typing_findings projectDir (create_typing_findings projectDir fs) =
      create_typing_findings projectDir fs := by
  unfold create_typing_findings
  cases h : (fs.mkdir (projectDir ++ [".long-task-harness"])).read (findingsPath projectDir) with
  | some c =>
    simp only [h]
    rw [mkdir_of_mem (mem_dirs_mkdir fs _)]
    simp [h]
  | none =>
    simp only [h]
    have hmem : (projectDir ++ [".long-task-harness"]) ∈
        ((fs.mkdir (projectDir ++ [".long-task-harness"])).write
          (findingsPath projectDir) .findingsTemplate).dirs := mem_dirs_mkdir fs _
    rw [mkdir_of_mem hmem]
    simp [read_write_self]

theorem read_findings_init_main (level : String) (noRules noHook : Bool)
    (skillDir projectDir : List String) (fs : FS) :
    (init_main level noRules noHook skillDir projectDir fs).read (findingsPath projectDir) =
      some ((fs.read (findingsPath projectDir)).getD .findingsTemplate) := by
  unfold init_main
  have h₁ := read_findings_create_pyright_config level projectDir fs
  have step₂ : ∀ g : FS,
      ((if noRules then g else create_rules skillDir projectDir g).read
        (findingsPath projectDir)) = g.read (findingsPath projectDir) := by
    intro g
    by_cases hr : noRules
    · simp [hr]
    · simp [hr, read_findings_create_rules]
  by_cases hh : noHook
  · rw [if_pos hh, read_findings_create_typing_findings, step₂, h₁]
  · rw [if_neg hh, read_findings_create_precommit_hook, read_findings_create_typing_findings,
      step₂, h₁]

theorem mem_ruleSection {x : OutputLine} {rules : List (String × Nat)}
    (hx : x ∈ ruleSection rules) :
    x = .byErrorTypeHeader ∨ x = .sep ∨ x = .blank ∨
    (∃ k c, x = .ruleEntry k c) ∨ (∃ s, x = .ruleHint s) ∨
    (10 < rules.length ∧ x = .moreTypes (rules.length - 10)) := by
  unfold ruleSection at hx
  rcases List.mem_append.mp hx with h1 | hb
  · rcases List.mem_append.mp h1 with h2 | hif
    · rcases List.mem_append.mp h2 with hhd | hfm
      · simp only [List.mem_cons, List.not_mem_nil, or_false] at hhd
        rcases hhd with h | h
        · exact Or.inl h
        · exact Or.inr (Or.inl h)
      · rw [List.mem_flatMap] at hfm
        rcases hfm with ⟨p, _, hp⟩
        unfold ruleLine at hp
        rcases List.mem_cons.mp hp with rfl | hp
        · exact Or.inr (Or.inr (Or.inr (Or.inl ⟨p.1, p.2, rfl⟩)))
        · by_cases hh : get_rule_hint p.1 = ""
          · simp [hh] at hp
          · simp only [hh, if_false, List.mem_singleton] at hp
            exact Or.inr (Or.inr (Or.inr (Or.inr (Or.inl ⟨_, hp⟩))))
    · by_cases h10 : 10 < rules.length
      · simp only [h10, if_true, List.mem_singleton] at hif
        exact Or.inr (Or.inr (Or.inr (Or.inr (Or.inr ⟨h10, hif⟩))))
      · simp [h10] at hif
  · simp only [List.mem_singleton] at hb
    exact Or.inr (Or.inr (Or.inl hb))

theorem mem_fileSection {x : OutputLine} {files : List (List String × Nat)}
    (hx : x ∈ fileSection files) :
    x = .byFileHeader ∨ x = .sep ∨ x = .blank ∨
    (∃ p c, x = .fileEntry p c) ∨
    (10 < files.length ∧ x = .moreFiles (files.length - 10)) := by
  unfold fileSection at hx
  rcases List.mem_append.mp hx with h1 | hb
  · rcases List.mem_append.mp h1 with h2 | hif
    · rcases List.mem_append.mp h2 with hhd | hmap
      · simp only [List.mem_cons, List.not_mem_nil, or_false] at hhd
        rcases hhd with h | h
        · exact Or.inl h
        · exact Or.inr (Or.inl h)
      · rw [List.mem_map] at hmap
        rcases hmap with ⟨p, _, hp⟩
        exact Or.inr (Or.inr (Or.inr (Or.inl ⟨p.1, p.2, hp.symm⟩)))
    · by_cases h10 : 10 < files.length
      · simp only [h10, if_true, List.mem_singleton] at hif
        exact Or.inr (Or.inr (Or.inr (Or.inr ⟨h10, hif⟩)))
      · simp [h10] at hif
  · simp only [List.mem_singleton] at hb
    exact Or.inr (Or.inr (Or.inl hb))

theorem mem_suggest {x : OutputLine} {rules : List (String × Nat)}
    {files : List (List String × Nat)}
    (hx : x ∈ suggest_starting_point rules files) :
    x = .strategyHeader ∨ x = .sep ∨ x = .blank ∨
    (∃ n, x = .quickWins n) ∨ x = .quickWinsDetail ∨
    (∃ n, x = .stubs n) ∨ x = .stubsDetail ∨
    (∃ p c, x = .goodStartingFile p c) ∨ (∃ p c, x = .startSmall p c) := by
  unfold suggest_starting_point at hx
  rcases List.mem_append.mp hx with h1 | hb
  · rcases List.mem_append.mp h1 with h2 | hpk
    · rcases List.mem_append.mp h2 with h3 | hst
      · rcases List.mem_append.mp h3 with hhd | hqw
        · simp only [List.mem_cons, List.not_mem_nil, or_false] at hhd
          rcases hhd with h | h
          · exact Or.inl h
          · exact Or.inr (Or.inl h)
        · by_cases hq : 0 < quickWinSum rules
          · simp only [hq, if_true, List.mem_cons, List.not_mem_nil, or_false] at hqw
            rcases hqw with h | h
            · exact Or.inr (Or.inr (Or.inr (Or.inl ⟨_, h⟩)))
            · exact Or.inr (Or.inr (Or.inr (Or.inr (Or.inl h))))
          · simp [hq] at hqw
      · by_cases hs : 20 < stubCount rules
        · simp only [hs, if_true, List.mem_cons, List.not_mem_nil, or_false] at hst
          rcases hst with h | h
          · exact Or.inr (Or.inr (Or.inr (Or.inr (Or.inr (Or.inl ⟨_, h⟩)))))
          · exact Or.inr (Or.inr (Or.inr (Or.inr (Or.inr (Or.inr (Or.inl h))))))
        · simp [hs] at hst
    · cases hpick : startingPick files with
      | none => rw [hpick] at hpk; simp at hpk
      | some s =>
        cases s with
        | goodStart p c =>
          rw [hpick] at hpk
          simp only [List.mem_singleton] at hpk
          exact Or.inr (Or.inr (Or.inr (Or.inr (Or.inr (Or.inr (Or.inr
            (Or.inl ⟨p, c, hpk⟩)))))))
        | startSmall p c =>
          rw [hpick] at hpk
          simp only [List.mem_singleton] at hpk
          exact Or.inr (Or.inr (Or.inr (Or.inr (Or.inr (Or.inr (Or.inr
            (Or.inr ⟨p, c, hpk⟩)))))))
  · simp only [List.mem_singleton] at hb
    exact Or.inr (Or.inr (Or.inl hb))

theorem countP_eq_zero_of_shape {l : List OutputLine} {p : OutputLine → Bool}
    (h : ∀ x ∈ l, p x = false) : l.countP p = 0 := by
  rw [List.countP_eq_zero]
  intro a ha
  simp [h a ha]

theorem countP_ruleLine (p : String × Nat) : (ruleLine p).countP isRuleEntry = 1 := by
  unfold ruleLine
  by_cases h : get_rule_hint p.1 = "" <;> simp [h, List.countP_cons, isRuleEntry]

theorem countP_flatMap_ruleLine (l : List (String × Nat)) :
    (l.flatMap ruleLine).countP isRuleEntry = l.length := by
  induction l with
  | nil => simp
  | cons p rest ih =>
    simp [List.flatMap_cons, List.countP_append, ih, countP_ruleLine]
    omega

theorem length_mostCommon {α : Type} (l : List (α × Nat)) (n : Nat) :
    (mostCommon l n).length = min n l.length := by
  rw [mostCommon, List.length_take, (perm_mostCommonAll l).length_eq]

theorem countP_isRuleEntry_ruleSection (rules : List (String × Nat)) :
    (ruleSection rules).countP isRuleEntry = min rules.length 10 := by
  have h1 : ((if 10 < rules.length then [OutputLine.moreTypes (rules.length - 10)]
      else []).countP isRuleEntry) = 0 := by
    by_cases h : 10 < rules.length <;> simp [h, isRuleEntry]
  unfold ruleSection
  simp only [List.countP_append, countP_flatMap_ruleLine, h1, length_mostCommon]
  simp [List.countP_cons, isRuleEntry, Nat.min_comm]

theorem countP_isFileEntry_fileSection (files : List (List String × Nat)) :
    (fileSection files).countP isFileEntry = min files.length 10 := by
  have h1 : ((if 10 < files.length then [OutputLine.moreFiles (files.length - 10)]
      else []).countP isFileEntry) = 0 := by
    by_cases h : 10 < files.length <;> simp [h, isFileEntry]
  have h2 : ∀ l : List (List String × Nat),
      ((l.map fun p => OutputLine.fileEntry p.1 p.2).countP isFileEntry) = l.length := by
    intro l
    induction l with
    | nil => simp
    | cons p rest ih => simp [List.countP_cons, ih, isFileEntry]
  unfold fileSection
  simp only [List.countP_append, h1, h2, length_mostCommon]
  simp [List.countP_cons, isFileEntry, Nat.min_comm]

theorem countP_isRuleEntry_fileSection (files : List (List String × Nat)) :
    (fileSection files).countP isRuleEntry = 0 :=
  countP_eq_zero_of_shape (fun x hx => by
    rcases mem_fileSection hx with h | h | h | ⟨p, c, h⟩ | ⟨h10, h⟩ <;> subst h <;> rfl)

theorem countP_isFileEntry_ruleSection (rules : List (String × Nat)) :
    (ruleSection rules).countP isFileEntry = 0 :=
  countP_eq_zero_of_shape (fun x hx => by
    rcases mem_ruleSection hx with h | h | h | ⟨k, c, h⟩ | ⟨s, h⟩ | ⟨h10, h⟩ <;>
      subst h <;> rfl)

theorem countP_isRuleEntry_suggest (rules : List (String × Nat))
    (files : List (List String × Nat)) :
    (suggest_starting_point rules files).countP isRuleEntry = 0 :=
  countP_eq_zero_of_shape (fun x hx => by
    rcases mem_suggest hx with h | h | h | ⟨n, h⟩ | h | ⟨n, h⟩ | h | ⟨p, c, h⟩ | ⟨p, c, h⟩ <;>
      subst h <;> rfl)

theorem countP_isFileEntry_suggest (rules : List (String × Nat))
    (files : List (List String × Nat)) :
    (suggest_starting_point rules files).countP isFileEntry = 0 :=
  countP_eq_zero_of_shape (fun x hx => by
    rcases mem_suggest hx with h | h | h | ⟨n, h⟩ | h | ⟨n, h⟩ | h | ⟨p, c, h⟩ | ⟨p, c, h⟩ <;>
      subst h <;> rfl)

theorem analyze_errors_pos {r : Report} (cwd : List String)
    (h : ¬ summaryErrorCount r = 0) :
    analyze_errors cwd r =
      [.banner, .title, .banner, .totals (summaryErrorCount r) (summaryWarningCount r)] ++
      ruleSection (ruleFrequency r.generalDiagnostics) ++
      fileSection (fileFrequency cwd r.generalDiagnostics) ++
      suggest_starting_point (ruleFrequency r.generalDiagnostics)
        (fileFrequency cwd r.generalDiagnostics) := by
  unfold analyze_errors
  simp [h]

/-- C1: for a Report whose summary `errorCount` is positive, the counts in
`ruleFrequency` sum to the number of severity-"error" diagnostics, and so do
the counts in `fileFrequency`; this sum is taken from the diagnostics, not
from the summary's `errorCount`, from which it may genuinely differ. -/
theorem C1_rule_file_frequency_sum (r : Report) (cwd : List String)
    (h : 0 < summaryErrorCount r) :
    sumCounts (ruleFrequency r.generalDiagnostics) =
      (errorDiags r.generalDiagnostics).length ∧
    sumCounts (fileFrequency cwd r.generalDiagnostics) =
      (errorDiags r.generalDiagnostics).length ∧
    ∃ r' : Report, 0 < summaryErrorCount r' ∧
      sumCounts (ruleFrequency r'.generalDiagnostics) ≠ summaryErrorCount r' := by
  refine ⟨?_, ?_, ?_⟩
  · rw [ruleFrequency, sumCounts_buildCounter, List.length_map]
  · rw [fileFrequency, sumCounts_buildCounter, List.length_map]
  · exact ⟨⟨[], some ⟨some 5, none⟩⟩, by decide, by decide⟩

theorem C1_rule_file_frequency_sum_witness :
    0 < summaryErrorCount ⟨[⟨some "error", some "reportGeneralTypeIssues", some ["m.py"]⟩,
        ⟨some "warning", none, none⟩], some ⟨some 2, some 1⟩⟩ ∧
    sumCounts (ruleFrequency [⟨some "error", some "reportGeneralTypeIssues", some ["m.py"]⟩,
        ⟨some "warning", none, none⟩]) =
      (errorDiags [⟨some "error", some "reportGeneralTypeIssues", some ["m.py"]⟩,
        ⟨some "warning", none, none⟩]).length :=
  ⟨by decide,
   (C1_rule_file_frequency_sum ⟨[⟨some "error", some "reportGeneralTypeIssues", some ["m.py"]⟩,
        ⟨some "warning", none, none⟩], some ⟨some 2, some 1⟩⟩ [] (by decide)).1⟩

/-- C2: for a Report whose summary `errorCount` is 0 (also when the summary
is absent and the count defaults to 0), the output is exactly the header
plus the distinct all-clear line, so the frequency tables are never
rendered and neither the "By Error Type" nor the "By File" section
appears. -/
theorem C2_all_clear (r : Report) (cwd : List String)
    (h : summaryErrorCount r = 0) :
    analyze_errors cwd r =
      [.banner, .title, .banner, .totals 0 (summaryWarningCount r), .noErrors] ∧
    OutputLine.noErrors ∈ analyze_errors cwd r ∧
    OutputLine.byErrorTypeHeader ∉ analyze_errors cwd r ∧
    OutputLine.byFileHeader ∉ analyze_errors cwd r := by
  have hout : analyze_errors cwd r =
      [.banner, .title, .banner, .totals 0 (summaryWarningCount r), .noErrors] := by
    unfold analyze_errors
    simp [h]
  refine ⟨hout, ?_, ?_, ?_⟩ <;> rw [hout] <;> simp

theorem C2_all_clear_witness :
    summaryErrorCount ⟨[⟨some "error", some "reportReturnType", some ["a.py"]⟩], none⟩ = 0 ∧
    analyze_errors [] ⟨[⟨some "error", some "reportReturnType", some ["a.py"]⟩], none⟩ =
      [.banner, .title, .banner, .totals 0 0, .noErrors] :=
  ⟨by decide,
   (C2_all_clear ⟨[⟨some "error", some "reportReturnType", some ["a.py"]⟩], none⟩ []
     (by decide)).1⟩

/-- C3: for every Report, both breakdown enumerations are the stable sort of
the insertion-ordered table by descending count: the enumeration is a
permutation of the table, pairwise count-descending, keeps tied-count
entries in table (= first-seen) order, and the top-10 extraction is the
take-10 prefix of the full enumeration; the table's own key order is the
first-seen order of the error diagnostics' keys. -/
theorem C3_breakdown_order (r : Report) (cwd : List String) :
    ((mostCommonAll (ruleFrequency r.generalDiagnostics)).Sorted countGE ∧
     (mostCommonAll (ruleFrequency r.generalDiagnostics)).Perm
       (ruleFrequency r.generalDiagnostics) ∧
     (∀ c, (mostCommonAll (ruleFrequency r.generalDiagnostics)).filter (fun q => q.2 == c) =
       (ruleFrequency r.generalDiagnostics).filter (fun q => q.2 == c)) ∧
     mostCommon (ruleFrequency r.generalDiagnostics) 10 =
       (mostCommonAll (ruleFrequency r.generalDiagnostics)).take 10 ∧
     counterKeys (ruleFrequency r.generalDiagnostics) =
       firstSeenKeys ((errorDiags r.generalDiagnostics).map ruleKey)) ∧
    ((mostCommonAll (fileFrequency cwd r.generalDiagnostics)).Sorted countGE ∧
     (mostCommonAll (fileFrequency cwd r.generalDiagnostics)).Perm
       (fileFrequency cwd r.generalDiagnostics) ∧
     (∀ c, (mostCommonAll (fileFrequency cwd r.generalDiagnostics)).filter
         (fun q => q.2 == c) =
       (fileFrequency cwd r.generalDiagnostics).filter (fun q => q.2 == c)) ∧
     mostCommon (fileFrequency cwd r.generalDiagnostics) 10 =
       (mostCommonAll (fileFrequency cwd r.generalDiagnostics)).take 10 ∧
     counterKeys (fileFrequency cwd r.generalDiagnostics) =
       firstSeenKeys ((errorDiags r.generalDiagnostics).map (fileKey cwd))) :=
  ⟨⟨sorted_mostCommonAll _, perm_mostCommonAll _, fun c => filter_mostCommonAll c _,
    rfl, counterKeys_buildCounter _⟩,
   ⟨sorted_mostCommonAll _, perm_mostCommonAll _, fun c => filter_mostCommonAll c _,
    rfl, counterKeys_buildCounter _⟩⟩

/-- C6: when more than 10 distinct rules occur among error diagnostics, the
output holds exactly 10 rule-entry lines plus a truncation notice carrying
the number of remaining rule types; with at most 10 distinct rules no
truncation notice appears anywhere in the output.  The same holds for the
file breakdown over distinct files. -/
theorem C6_truncation (r : Report) (cwd : List String)
    (h : 0 < summaryErrorCount r) :
    (analyze_errors cwd r).countP isRuleEntry =
      min (ruleFrequency r.generalDiagnostics).length 10 ∧
    (analyze_errors cwd r).countP isFileEntry =
      min (fileFrequency cwd r.generalDiagnostics).length 10 ∧
    (10 < (ruleFrequency r.generalDiagnostics).length →
      OutputLine.moreTypes ((ruleFrequency r.generalDiagnostics).length - 10) ∈
        analyze_errors cwd r) ∧
    ((ruleFrequency r.generalDiagnostics).length ≤ 10 →
      ∀ k, OutputLine.moreTypes k ∉ analyze_errors cwd r) ∧
    (10 < (fileFrequency cwd r.generalDiagnostics).length →
      OutputLine.moreFiles ((fileFrequency cwd r.generalDiagnostics).length - 10) ∈
        analyze_errors cwd r) ∧
    ((fileFrequency cwd r.generalDiagnostics).length ≤ 10 →
      ∀ k, OutputLine.moreFiles k ∉ analyze_errors cwd r) := by
  have hne : ¬ summaryErrorCount r = 0 := Nat.pos_iff_ne_zero.mp h
  have hout := analyze_errors_pos cwd hne
  refine ⟨?_, ?_, ?_, ?_, ?_, ?_⟩
  · rw [hout]
    simp only [List.countP_append, countP_isRuleEntry_ruleSection,
      countP_isRuleEntry_fileSection, countP_isRuleEntry_suggest]
    simp [List.countP_cons, isRuleEntry]
  · rw [hout]
    simp only [List.countP_append, countP_isFileEntry_ruleSection,
      countP_isFileEntry_fileSection, countP_isFileEntry_suggest]
    simp [List.countP_cons, isFileEntry]
  · intro h10
    rw [hout]
    have hmem : OutputLine.moreTypes ((ruleFrequency r.generalDiagnostics).length - 10) ∈
        ruleSection (ruleFrequency r.generalDiagnostics) := by
      unfold ruleSection
      simp [List.mem_append, h10]
    simp [List.mem_append, hmem]
  · intro hn k hmem
    rw [hout] at hmem
    rcases List.mem_append.mp hmem with hmem | hs
    · rcases List.mem_append.mp hmem with hmem | hf
      · rcases List.mem_append.mp hmem with hh | hr
        · simp at hh
        · rcases mem_ruleSection hr with h' | h' | h' | ⟨a, b, h'⟩ | ⟨s, h'⟩ | ⟨h10, h'⟩ <;>
            first | omega | simp_all
      · rcases mem_fileSection hf with h' | h' | h' | ⟨a, b, h'⟩ | ⟨h10, h'⟩ <;> simp_all
    · rcases mem_suggest hs with
        h' | h' | h' | ⟨a, h'⟩ | h' | ⟨a, h'⟩ | h' | ⟨a, b, h'⟩ | ⟨a, b, h'⟩ <;> simp_all
  · intro h10
    rw [hout]
    have hmem : OutputLine.moreFiles ((fileFrequency cwd r.generalDiagnostics).length - 10) ∈
        fileSection (fileFrequency cwd r.generalDiagnostics) := by
      unfold fileSection
      simp [List.mem_append, h10]
    simp [List.mem_append, hmem]
  · intro hn k hmem
    rw [hout] at hmem
    rcases List.mem_append.mp hmem with hmem | hs
    · rcases List.mem_append.mp hmem with hmem | hf
      · rcases List.mem_append.mp hmem with hh | hr
        · simp at hh
        · rcases mem_ruleSection hr with h' | h' | h' | ⟨a, b, h'⟩ | ⟨s, h'⟩ | ⟨h10, h'⟩ <;>
            simp_all
      · rcases mem_fileSection hf with h' | h' | h' | ⟨a, b, h'⟩ | ⟨h10, h'⟩ <;>
          first | omega | simp_all
    · rcases mem_suggest hs with
        h' | h' | h' | ⟨a, h'⟩ | h' | ⟨a, h'⟩ | h' | ⟨a, b, h'⟩ | ⟨a, b, h'⟩ <;> simp_all

theorem C6_truncation_witness :
    10 < (ruleFrequency elevenRuleReport.generalDiagnostics).length ∧
    OutputLine.moreTypes 1 ∈ analyze_errors [] elevenRuleReport :=
  ⟨by decide, (C6_truncation elevenRuleReport [] (by decide)).2.2.1 (by decide)⟩

theorem getLast?_ne_none {α : Type} : ∀ {l : List α}, l ≠ [] → l.getLast? ≠ none := by
  intro l
  induction l with
  | nil => intro h; exact absurd rfl h
  | cons a rest ih =>
    intro _ hnone
    cases rest with
    | nil => simp at hnone
    | cons b t =>
      rw [List.getLast?_cons_cons] at hnone
      exact ih (by simp) hnone

/-- C10: a Report whose summary claims errors but whose diagnostics contain
no severity-"error" entry yields empty frequency tables, both breakdown
sections with headers only (no entries, no truncation notice), and no
starting-file suggestion at all: neither branch of the suggestion fires. -/
theorem C10_zero_error_diagnostics (r : Report) (cwd : List String)
    (h : 0 < summaryErrorCount r)
    (hd : ∀ d ∈ r.generalDiagnostics, d.severity ≠ some "error") :
    ruleFrequency r.generalDiagnostics = [] ∧
    fileFrequency cwd r.generalDiagnostics = [] ∧
    analyze_errors cwd r =
      [.banner, .title, .banner,
       .totals (summaryErrorCount r) (summaryWarningCount r),
       .byErrorTypeHeader, .sep, .blank, .byFileHeader, .sep, .blank,
       .strategyHeader, .sep, .blank] ∧
    (∀ p c, OutputLine.goodStartingFile p c ∉ analyze_errors cwd r ∧
            OutputLine.startSmall p c ∉ analyze_errors cwd r) := by
  have herr : errorDiags r.generalDiagnostics = [] := by
    unfold errorDiags
    rw [List.filter_eq_nil_iff]
    intro d hdmem
    simp [hd d hdmem]
  have hrf : ruleFrequency r.generalDiagnostics = [] := by
    rw [ruleFrequency, herr]
    rfl
  have hff : fileFrequency cwd r.generalDiagnostics = [] := by
    rw [fileFrequency, herr]
    rfl
  have hne : ¬ summaryErrorCount r = 0 := Nat.pos_iff_ne_zero.mp h
  have hout : analyze_errors cwd r =
      [.banner, .title, .banner,
       .totals (summaryErrorCount r) (summaryWarningCount r),
       .byErrorTypeHeader, .sep, .blank, .byFileHeader, .sep, .blank,
       .strategyHeader, .sep, .blank] := by
    rw [analyze_errors_pos cwd hne, hrf, hff]
    simp [ruleSection, fileSection, suggest_starting_point, mostCommon, mostCommonAll,
      quickWinSum, quick_win_rules, counterGet, stubCount, startingPick]
  refine ⟨hrf, hff, hout, ?_⟩
  intro p c
  rw [hout]
  constructor <;> simp

theorem C10_zero_error_diagnostics_witness :
    0 < summaryErrorCount ⟨[⟨some "warning", some "reportPrivateUsage", some ["w.py"]⟩],
      some ⟨some 2, some 1⟩⟩ ∧
    analyze_errors [] ⟨[⟨some "warning", some "reportPrivateUsage", some ["w.py"]⟩],
      some ⟨some 2, some 1⟩⟩ =
      [.banner, .title, .banner, .totals 2 1,
       .byErrorTypeHeader, .sep, .blank, .byFileHeader, .sep, .blank,
       .strategyHeader, .sep, .blank] :=
  ⟨by decide,
   (C10_zero_error_diagnostics ⟨[⟨some "warning", some "reportPrivateUsage", some ["w.py"]⟩],
      some ⟨some 2, some 1⟩⟩ [] (by decide) (by decide)).2.2.1⟩

/-- C7: the checker invocation returns `none` ("unavailable") when the tool
cannot be started, when it times out, or when its stdout is unparseable,
instead of propagating an exception; the exit code is never consulted, and
a parseable stdout yields the Report even under a nonzero exit code. -/
theorem C7_run_pyright_robust (parse : String → Option Report) :
    run_pyright .startFailure parse = none ∧
    run_pyright .timeout parse = none ∧
    (∀ (code : Int) (out : String), parse out = none →
      run_pyright (.completed code out) parse = none) ∧
    (∀ (code : Int) (out : String) (rep : Report), code ≠ 0 → parse out = some rep →
      run_pyright (.completed code out) parse = some rep) ∧
    (∀ (code₁ code₂ : Int) (out : String),
      run_pyright (.completed code₁ out) parse = run_pyright (.completed code₂ out) parse) := by
  refine ⟨rfl, rfl, ?_, ?_, ?_⟩
  · intro code out hout
    simpa [run_pyright] using hout
  · intro code out rep _ hout
    simpa [run_pyright] using hout
  · intro code₁ code₂ out
    rfl

theorem C7_run_pyright_robust_witness :
    (2 : Int) ≠ 0 ∧
    (fun s => if s = "report" then some (⟨[], none⟩ : Report) else none) "report" =
      some (⟨[], none⟩ : Report) ∧
    run_pyright (.completed 2 "report")
      (fun s => if s = "report" then some (⟨[], none⟩ : Report) else none) =
      some (⟨[], none⟩ : Report) :=
  ⟨by decide, by decide,
   (C7_run_pyright_robust
     (fun s => if s = "report" then some (⟨[], none⟩ : Report) else none)).2.2.2.1
     2 "report" ⟨[], none⟩ (by decide) (by decide)⟩

/-- C8: the file-table key of an error diagnostic is the path made relative
to the working directory when the components of the working directory are a
prefix of the path's (the success case of `Path.relative_to`), and the
original path unchanged otherwise; the conversion is total, never an
exception escaping the aggregation loop. -/
theorem C8_display_path (cwd p : List String) :
    (cwd.isPrefixOf p = true →
      relativeTo cwd p = some (p.drop cwd.length) ∧
      displayPath cwd p = p.drop cwd.length ∧
      cwd ++ displayPath cwd p = p) ∧
    (cwd.isPrefixOf p = false →
      relativeTo cwd p = none ∧ displayPath cwd p = p) ∧
    (∀ d : Diagnostic, fileKey cwd d = displayPath cwd (d.file.getD ["unknown"])) := by
  refine ⟨?_, ?_, fun d => rfl⟩
  · intro h
    have hpre : cwd <+: p := by
      rw [← List.isPrefixOf_iff_prefix]
      exact h
    rcases hpre with ⟨t, ht⟩
    have hdrop : p.drop cwd.length = t := by
      rw [← ht, List.drop_left]
    refine ⟨by simp [relativeTo, h], by simp [displayPath, relativeTo, h], ?_⟩
    simp [displayPath, relativeTo, h, hdrop, ht]
  · intro h
    refine ⟨by simp [relativeTo, h], by simp [displayPath, relativeTo, h]⟩

theorem C8_display_path_witness :
    ["home", "proj"].isPrefixOf ["home", "proj", "src", "m.py"] = true ∧
    displayPath ["home", "proj"] ["home", "proj", "src", "m.py"] = ["src", "m.py"] ∧
    ["home", "proj"].isPrefixOf ["etc", "x.py"] = false ∧
    displayPath ["home", "proj"] ["etc", "x.py"] = ["etc", "x.py"] :=
  ⟨by decide,
   ((C8_display_path ["home", "proj"] ["home", "proj", "src", "m.py"]).1 (by decide)).2.1,
   by decide,
   ((C8_display_path ["home", "proj"] ["etc", "x.py"]).2.1 (by decide)).2⟩

/-- C9: running the scaffolding twice leaves the findings log exactly as
after the first run; `create_typing_findings` itself is idempotent; an
existing findings log is never overwritten; and a fresh run creates it from
the fixed template. -/
theorem C9_scaffolding_idempotent (level : String) (noRules noHook : Bool)
    (skillDir projectDir : List String) (fs : FS) :
    (init_main level noRules noHook skillDir projectDir
        (init_main level noRules noHook skillDir projectDir fs)).read
        (findingsPath projectDir) =
      (init_main level noRules noHook skillDir projectDir fs).read
        (findingsPath projectDir) ∧
    create_typing_findings projectDir (create_typing_findings projectDir fs) =
      create_typing_findings projectDir fs ∧
    (∀ c, fs.read (findingsPath projectDir) = some c →
      (init_main level noRules noHook skillDir projectDir fs).read
        (findingsPath projectDir) = some c) ∧
    (fs.read (findingsPath projectDir) = none →
      (init_main level noRules noHook skillDir projectDir fs).read
        (findingsPath projectDir) = some .findingsTemplate) := by
  refine ⟨?_, create_typing_findings_idem projectDir fs, ?_, ?_⟩
  · rw [read_findings_init_main, read_findings_init_main]
    simp
  · intro c hc
    rw [read_findings_init_main, hc]
    rfl
  · intro h0
    rw [read_findings_init_main, h0]
    rfl

theorem C9_scaffolding_idempotent_witness :
    (FS.read ⟨[], []⟩ (findingsPath ["proj"]) = none) ∧
    (init_main "strict" false false ["skill"] ["proj"] ⟨[], []⟩).read
      (findingsPath ["proj"]) = some .findingsTemplate :=
  ⟨by decide,
   (C9_scaffolding_idempotent "strict" false false ["skill"] ["proj"] ⟨[], []⟩).2.2.2
     (by decide)⟩

/-- C4 counterexample: on the file counts a:3, b:7, c:25, d:12 the engine
selects b (count 7, the minimum inside [5, 20]), not d as the claim's first
example asserts. -/
theorem C4_counterexample :
    startingPick [("a", 3), ("b", 7), ("c", 25), ("d", 12)] =
      some (.goodStart "b" 7) ∧
    StartSuggestion.goodStart "b" 7 ≠ StartSuggestion.goodStart "d" 12 := by
  decide

/-- C4 (amended): the starting file is the first minimum-count entry among
files with count in [5, 20]; with none in range, the fallback is a file
with the globally fewest errors; path and count are emitted.  On
a:3, b:7, c:25, d:12 the engine selects b (7); on a:3, b:25 it selects
a (3). -/
theorem C4_starting_file_amended (r : Report) (cwd : List String)
    (h : 0 < summaryErrorCount r) :
    (∀ p, minByCount ((fileFrequency cwd r.generalDiagnostics).filter
          (fun q => decide (5 ≤ q.2 ∧ q.2 ≤ 20))) = some p →
      startingPick (fileFrequency cwd r.generalDiagnostics) =
        some (.goodStart p.1 p.2) ∧
      OutputLine.goodStartingFile p.1 p.2 ∈ analyze_errors cwd r ∧
      p ∈ (fileFrequency cwd r.generalDiagnostics).filter
          (fun q => decide (5 ≤ q.2 ∧ q.2 ≤ 20)) ∧
      (∀ q ∈ (fileFrequency cwd r.generalDiagnostics).filter
          (fun q => decide (5 ≤ q.2 ∧ q.2 ≤ 20)), p.2 ≤ q.2) ∧
      (∃ l₁ l₂, (fileFrequency cwd r.generalDiagnostics).filter
          (fun q => decide (5 ≤ q.2 ∧ q.2 ≤ 20)) = l₁ ++ p :: l₂ ∧
        ∀ q ∈ l₁, p.2 < q.2)) ∧
    ((fileFrequency cwd r.generalDiagnostics).filter
        (fun q => decide (5 ≤ q.2 ∧ q.2 ≤ 20)) = [] →
      fileFrequency cwd r.generalDiagnostics ≠ [] →
      ∃ p, startingPick (fileFrequency cwd r.generalDiagnostics) =
          some (.startSmall p.1 p.2) ∧
        OutputLine.startSmall p.1 p.2 ∈ analyze_errors cwd r ∧
        p ∈ fileFrequency cwd r.generalDiagnostics ∧
        ∀ q ∈ fileFrequency cwd r.generalDiagnostics, p.2 ≤ q.2) ∧
    startingPick [("a", 3), ("b", 7), ("c", 25), ("d", 12)] =
      some (.goodStart "b" 7) ∧
    startingPick [("a", 3), ("b", 25)] = some (.startSmall "a" 3) := by
  have hne : ¬ summaryErrorCount r = 0 := Nat.pos_iff_ne_zero.mp h
  refine ⟨?_, ?_, by decide, by decide⟩
  · intro p hp
    rcases minByCount_spec hp with ⟨⟨l₁, l₂, hsplit, hstrict⟩, hmin⟩
    have hpmem : p ∈ (fileFrequency cwd r.generalDiagnostics).filter
        (fun q => decide (5 ≤ q.2 ∧ q.2 ≤ 20)) := by
      rw [hsplit]
      simp
    have hfe : (fileFrequency cwd r.generalDiagnostics).isEmpty = false := by
      cases hfiles : fileFrequency cwd r.generalDiagnostics with
      | nil =>
        rw [hfiles] at hp
        simp [minByCount] at hp
      | cons a t => rfl
    have hpick : startingPick (fileFrequency cwd r.generalDiagnostics) =
        some (.goodStart p.1 p.2) := by
      unfold startingPick
      simp only [hfe, Bool.false_eq_true, if_false, hp]
    have hsugg : OutputLine.goodStartingFile p.1 p.2 ∈
        suggest_starting_point (ruleFrequency r.generalDiagnostics)
          (fileFrequency cwd r.generalDiagnostics) := by
      unfold suggest_starting_point
      simp [List.mem_append, hpick]
    refine ⟨hpick, ?_, hpmem, hmin, ⟨l₁, l₂, hsplit, hstrict⟩⟩
    rw [analyze_errors_pos cwd hne]
    simp [List.mem_append, hsugg]
  · intro hmod hne0
    have hfe : (fileFrequency cwd r.generalDiagnostics).isEmpty = false := by
      cases hfiles : fileFrequency cwd r.generalDiagnostics with
      | nil => exact absurd hfiles hne0
      | cons a t => rfl
    have hminnone : minByCount ((fileFrequency cwd r.generalDiagnostics).filter
        (fun q => decide (5 ≤ q.2 ∧ q.2 ≤ 20))) = none := by
      rw [hmod]
      rfl
    have hmcne : mostCommonAll (fileFrequency cwd r.generalDiagnostics) ≠ [] := by
      intro hnil
      have := (perm_mostCommonAll (fileFrequency cwd r.generalDiagnostics)).length_eq
      rw [hnil] at this
      exact hne0 (List.length_eq_zero.mp this.symm)
    cases hlast : (mostCommonAll (fileFrequency cwd r.generalDiagnostics)).getLast? with
    | none => exact absurd hlast (getLast?_ne_none hmcne)
    | some p =>
      have hpick : startingPick (fileFrequency cwd r.generalDiagnostics) =
          some (.startSmall p.1 p.2) := by
        unfold startingPick
        simp only [hfe, Bool.false_eq_true, if_false, hminnone, hlast]
      have hsugg : OutputLine.startSmall p.1 p.2 ∈
          suggest_starting_point (ruleFrequency r.generalDiagnostics)
            (fileFrequency cwd r.generalDiagnostics) := by
        unfold suggest_starting_point
        simp [List.mem_append, hpick]
      refine ⟨p, hpick, ?_, ?_, ?_⟩
      · rw [analyze_errors_pos cwd hne]
        simp [List.mem_append, hsugg]
      · exact (perm_mostCommonAll _).mem_iff.mp (getLast?_mem_self hlast)
      · intro q hq
        exact getLast?_min_of_sorted (sorted_mostCommonAll _) hlast q
          ((perm_mostCommonAll _).mem_iff.mpr hq)

theorem C4_starting_file_amended_witness :
    0 < summaryErrorCount sevenErrorReport ∧
    minByCount ((fileFrequency [] sevenErrorReport.generalDiagnostics).filter
      (fun q => decide (5 ≤ q.2 ∧ q.2 ≤ 20))) = some (["g"], 7) ∧
    startingPick (fileFrequency [] sevenErrorReport.generalDiagnostics) =
      some (.goodStart ["g"] 7) ∧
    OutputLine.goodStartingFile ["g"] 7 ∈ analyze_errors [] sevenErrorReport :=
  ⟨by decide, by decide,
   ((C4_starting_file_amended sevenErrorReport [] (by decide)).1 (["g"], 7) (by decide)).1,
   ((C4_starting_file_amended sevenErrorReport [] (by decide)).1 (["g"], 7) (by decide)).2.1⟩

/-- C5 counterexample: on the tied file table a.py:3, b.py:3 (both outside
[5, 20]) the global-minimum fallback picks b.py, the LAST-seen among the
tied minima, so ties are not resolved in favour of the first-seen entry. -/
theorem C5_counterexample :
    startingPick [(["a.py"], 3), (["b.py"], 3)] =
      some (.startSmall ["b.py"] 3) ∧
    StartSuggestion.startSmall (["b.py"] : List String) 3 ≠
      StartSuggestion.startSmall ["a.py"] 3 := by
  decide

/-- C5 (amended): the analysis is a pure function of the Report, so two
runs on the same Report give identical output; every tie-break is a
deterministic function of the insertion-ordered table (never an unordered
iteration): the [5, 20]-range pick takes the FIRST entry among tied minima,
while the global-minimum fallback takes an entry of globally minimal count
that is the LAST-seen among the tied minima. -/
theorem C5_determinism_amended (cwd : List String) (r₁ r₂ : Report) (h : r₁ = r₂) :
    analyze_errors cwd r₁ = analyze_errors cwd r₂ ∧
    (∀ (files : List (List String × Nat)) p,
      minByCount (files.filter (fun q => decide (5 ≤ q.2 ∧ q.2 ≤ 20))) = some p →
      ∃ l₁ l₂, files.filter (fun q => decide (5 ≤ q.2 ∧ q.2 ≤ 20)) = l₁ ++ p :: l₂ ∧
        ∀ q ∈ l₁, p.2 < q.2) ∧
    (∀ (files : List (List String × Nat)) (p : List String) (c : Nat),
      startingPick files = some (.startSmall p c) →
      (p, c) ∈ files ∧ (∀ q ∈ files, c ≤ q.2) ∧
      (files.filter (fun q => q.2 == c)).getLast? = some (p, c)) := by
  refine ⟨by rw [h], ?_, ?_⟩
  · intro files p hp
    exact (minByCount_spec hp).1
  · intro files p c hp
    unfold startingPick at hp
    by_cases hfe : files.isEmpty = true
    · rw [if_pos hfe] at hp
      cases hp
    · rw [if_neg hfe] at hp
      cases hmin : minByCount (files.filter (fun q => decide (5 ≤ q.2 ∧ q.2 ≤ 20))) with
      | some q =>
        simp only [hmin] at hp
        cases hp
      | none =>
        simp only [hmin] at hp
        cases hlast : (mostCommonAll files).getLast? with
        | none =>
          simp only [hlast] at hp
          cases hp
        | some q =>
          simp only [hlast, Option.some.injEq, StartSuggestion.startSmall.injEq] at hp
          obtain ⟨hq1, hq2⟩ := hp
          subst hq1
          subst hq2
          refine ⟨?_, ?_, ?_⟩
          · have := (perm_mostCommonAll files).mem_iff.mp (getLast?_mem_self hlast)
            simpa using this
          · intro z hz
            exact getLast?_min_of_sorted (sorted_mostCommonAll files) hlast z
              ((perm_mostCommonAll files).mem_iff.mpr hz)
          · have hbeq : (fun (z : List String × Nat) => z.2 == q.2) q = true := by simp
            have := @getLast?_filter_of_getLast? (List String × Nat)
              (fun z => z.2 == q.2) (mostCommonAll files) q hlast hbeq
            rw [filter_mostCommonAll] at this
            simpa using this

theorem C5_determinism_amended_witness :
    analyze_errors [] ⟨[], none⟩ = analyze_errors [] ⟨[], none⟩ ∧
    ((["b.py"], 3) ∈ ([(["a.py"], 3), (["b.py"], 3)] : List (List String × Nat)) ∧
     (∀ q ∈ ([(["a.py"], 3), (["b.py"], 3)] : List (List String × Nat)), 3 ≤ q.2) ∧
     (([(["a.py"], 3), (["b.py"], 3)] : List (List String × Nat)).filter
        (fun q => q.2 == 3)).getLast? = some (["b.py"], 3)) :=
  ⟨(C5_determinism_amended [] ⟨[], none⟩ ⟨[], none⟩ rfl).1,
   (C5_determinism_amended [] ⟨[], none⟩ ⟨[], none⟩ rfl).2.2
     [(["a.py"], 3), (["b.py"], 3)] ["b.py"] 3 (by decide)⟩
